import Mathlib

/-
Verification development for the pigeon_sonatta video-to-MIDI program.

The Python sources are shallowly embedded:
* `audio.py`  — `AudioGenerator`: velocity conversion (`metric_to_velocity`),
  the per-frame note state machine (`generate_midi_events`), the note map
  construction (`_create_note_map`), the configuration setters
  (`set_scale`, `set_grid_size`, `set_note_range`, `stop_all_notes`) and
  `cleanup`.
* `scales.py` — the `SCALES` table and `generate_scale_notes`.
* `video.py`  — the processing-queue backpressure step of `_decoder_loop`.

Python `dict`s (insertion ordered, unique keys) are embedded as association
lists; Python `float` arithmetic is idealised as exact rational arithmetic;
Python `int` MIDI notes and velocities are embedded as `Int`.
-/

set_option autoImplicit false

namespace PigeonSonatta

/-! ### Association lists: the embedding of Python `dict`

Python dicts preserve insertion order; assignment to an existing key keeps
its position, assignment to a fresh key appends, `del` removes the entry. -/

/-- `d[k]` lookup returning `none` when the key is absent (`k in d` is
`(dlookup d k).isSome`). -/
def dlookup {α β : Type} [DecidableEq α] (k : α) : List (α × β) → Option β
  | [] => none
  | p :: rest => if p.1 = k then some p.2 else dlookup k rest

/-- `d[k] = v`: replace in place if the key exists, otherwise append. -/
def dinsert {α β : Type} [DecidableEq α] (k : α) (v : β) : List (α × β) → List (α × β)
  | [] => [(k, v)]
  | p :: rest => if p.1 = k then (k, v) :: rest else p :: dinsert k v rest

/-- `del d[k]`: remove the (first) entry with key `k`. -/
def derase {α β : Type} [DecidableEq α] (k : α) : List (α × β) → List (α × β)
  | [] => []
  | p :: rest => if p.1 = k then rest else p :: derase k rest

@[simp] theorem dlookup_nil {α β : Type} [DecidableEq α] (k : α) :
    dlookup k ([] : List (α × β)) = none := rfl

@[simp] theorem dlookup_cons {α β : Type} [DecidableEq α] (k : α) (p : α × β)
    (rest : List (α × β)) :
    dlookup k (p :: rest) = if p.1 = k then some p.2 else dlookup k rest := rfl

theorem dlookup_dinsert_self {α β : Type} [DecidableEq α] (k : α) (v : β)
    (d : List (α × β)) : dlookup k (dinsert k v d) = some v := by
  induction d with
  | nil => simp [dinsert]
  | cons p rest ih =>
    by_cases h : p.1 = k
    · simp [dinsert, h]
    · simp [dinsert, h, ih]

theorem dlookup_dinsert_ne {α β : Type} [DecidableEq α] (k k' : α) (v : β)
    (d : List (α × β)) (h : k' ≠ k) :
    dlookup k (dinsert k' v d) = dlookup k d := by
  induction d with
  | nil => simp [dinsert, h]
  | cons p rest ih =>
    by_cases hp : p.1 = k'
    · simp [dinsert, hp, h]
    · simp only [dinsert, if_neg hp, dlookup_cons, ih]

theorem dlookup_eq_none_of_forall {α β : Type} [DecidableEq α] (k : α)
    (d : List (α × β)) (h : ∀ p ∈ d, p.1 ≠ k) : dlookup k d = none := by
  induction d with
  | nil => rfl
  | cons p rest ih =>
    simp only [dlookup_cons, if_neg (h p (List.mem_cons_self p rest))]
    exact ih fun q hq => h q (List.mem_cons_of_mem p hq)

theorem dlookup_derase_self {α β : Type} [DecidableEq α] (k : α)
    (d : List (α × β)) (hd : (d.map Prod.fst).Nodup) :
    dlookup k (derase k d) = none := by
  induction d with
  | nil => simp [derase]
  | cons p rest ih =>
    simp only [List.map_cons, List.nodup_cons, List.mem_map] at hd
    by_cases h : p.1 = k
    · simp only [derase, if_pos h]
      refine dlookup_eq_none_of_forall k rest fun q hq hqk => ?_
      exact hd.1 ⟨q, hq, by rw [hqk, h]⟩
    · simp only [derase, if_neg h, dlookup_cons, if_neg h]
      exact ih hd.2

theorem dlookup_derase_ne {α β : Type} [DecidableEq α] (k k' : α)
    (d : List (α × β)) (h : k' ≠ k) :
    dlookup k (derase k' d) = dlookup k d := by
  induction d with
  | nil => simp [derase]
  | cons p rest ih =>
    by_cases hp : p.1 = k'
    · have hpk : p.1 ≠ k := by rw [hp]; exact h
      simp [derase, hp, hpk, h]
    · simp only [derase, if_neg hp, dlookup_cons, ih]

/-! ### Python `int()` truncation on exact rationals -/

/-- Python `int(x)` truncates toward zero. -/
def pyInt (q : ℚ) : ℤ := if 0 ≤ q then ⌊q⌋ else ⌈q⌉

/-! ### `audio.py`: velocity conversion and the note state machine

`GenParams` bundles the fields of `AudioGenerator` that
`generate_midi_events` reads: the two hysteresis thresholds and the
re-trigger threshold from `AudioConfig`, plus the generator's
`sensitivity` multiplier. -/

structure GenParams where
  NOTE_ON_THRESHOLD : ℚ
  NOTE_OFF_THRESHOLD : ℚ
  VELOCITY_CHANGE_THRESHOLD : ℤ
  sensitivity : ℚ
  deriving DecidableEq

/-- The `AudioConfig` defaults from `config.py` combined with the default
sensitivity 1.0. -/
def defaultParams : GenParams :=
  { NOTE_ON_THRESHOLD := 1/10
    NOTE_OFF_THRESHOLD := 1/20
    VELOCITY_CHANGE_THRESHOLD := 10
    sensitivity := 1 }

/-- `AudioGenerator.metric_to_velocity`:
`velocity = int(brightness * 127 * self.sensitivity)` then
`max(0, min(127, velocity))`. -/
def metric_to_velocity (P : GenParams) (brightness : ℚ) : ℤ :=
  max 0 (min 127 (pyInt (brightness * 127 * P.sensitivity)))

/-- A `('note_on', note, velocity)` / `('note_off', note, velocity)` tuple
appended to `midi_events`. -/
inductive MidiEvent where
  | note_on (note velocity : ℤ)
  | note_off (note velocity : ℤ)
  deriving DecidableEq

/-- The note of an event. -/
def MidiEvent.note : MidiEvent → ℤ
  | .note_on n _ => n
  | .note_off n _ => n

/-- The body of the `for region_index, metric_value in metric_values.items()`
loop of `generate_midi_events`, acting on the pair
(accumulated `midi_events`, `self.current_notes`). -/
def processRegion (P : GenParams) (note_map : List (ℕ × ℤ))
    (acc : List MidiEvent × List (ℤ × ℤ)) (rm : ℕ × ℚ) :
    List MidiEvent × List (ℤ × ℤ) :=
  let events := acc.1
  let current := acc.2
  match dlookup rm.1 note_map with
  | none => (events, current)      -- `if region_index not in self.note_map: continue`
  | some note =>
    let velocity := metric_to_velocity P rm.2
    let is_playing := (dlookup note current).isSome
    let should_play := P.NOTE_ON_THRESHOLD < rm.2
    let should_stop := rm.2 ≤ P.NOTE_OFF_THRESHOLD
    if should_play ∧ ¬is_playing then
      (events ++ [.note_on note velocity], dinsert note velocity current)
    else if should_play ∧ is_playing then
      let current_velocity := (dlookup note current).getD 0
      if P.VELOCITY_CHANGE_THRESHOLD < |velocity - current_velocity| then
        (events ++ [.note_off note current_velocity, .note_on note velocity],
         dinsert note velocity current)
      else
        (events, current)
    else if should_stop ∧ is_playing then
      (events ++ [.note_off note ((dlookup note current).getD 0)],
       derase note current)
    else
      (events, current)

/-- `AudioGenerator.generate_midi_events`: fold the loop body over the
`metric_values` dict; returns the emitted event list and the updated
`current_notes` dict. -/
def generate_midi_events (P : GenParams) (note_map : List (ℕ × ℤ))
    (current_notes : List (ℤ × ℤ)) (metric_values : List (ℕ × ℚ)) :
    List MidiEvent × List (ℤ × ℤ) :=
  metric_values.foldl (processRegion P note_map) ([], current_notes)

/-- The spec's formula for the velocity: `clamp(round(m*127*sensitivity), 0, 127)`
(with rounding instead of the code's truncation). -/
def metric_to_velocity_roundSpec (P : GenParams) (brightness : ℚ) : ℤ :=
  max 0 (min 127 (round (brightness * 127 * P.sensitivity)))

/-- The amended formula: `clamp(floor(m*127*sensitivity), 0, 127)`; for the
non-negative products that arise from `m ≥ 0`, `sensitivity ≥ 0`, truncation
toward zero is the floor. -/
def metric_to_velocity_floorSpec (P : GenParams) (brightness : ℚ) : ℤ :=
  max 0 (min 127 (⌊brightness * 127 * P.sensitivity⌋))

/-! ### `scales.py`

The `SCALES` dict (Python sorts it by key at module load; the lookup used
below is unaffected by entry order). -/

def SCALES : List (String × List ℤ) := [
  ("Major", [0, 2, 4, 5, 7, 9, 11]),
  ("Dorian", [0, 2, 3, 5, 7, 9, 10]),
  ("Phrygian", [0, 1, 3, 5, 7, 8, 10]),
  ("Lydian", [0, 2, 4, 6, 7, 9, 11]),
  ("Mixolydian", [0, 2, 4, 5, 7, 9, 10]),
  ("Locrian", [0, 1, 3, 5, 6, 8, 10]),
  ("Minor", [0, 2, 3, 5, 7, 8, 10]),
  ("Harmonic Minor", [0, 2, 3, 5, 7, 8, 11]),
  ("Melodic Minor", [0, 2, 3, 5, 7, 9, 11]),
  ("Pentatonic Major", [0, 2, 4, 7, 9]),
  ("Pentatonic Minor", [0, 3, 5, 7, 10]),
  ("Egyptian", [0, 2, 5, 7, 10]),
  ("Chinese", [0, 4, 6, 7, 11]),
  ("Japanese", [0, 1, 5, 7, 8]),
  ("Hirajoshi", [0, 2, 3, 7, 8]),
  ("Iwato", [0, 1, 5, 6, 10]),
  ("Kumoi", [0, 2, 3, 7, 9]),
  ("Pelog", [0, 1, 3, 7, 8]),
  ("Blues", [0, 3, 5, 6, 7, 10]),
  ("Blues Major", [0, 2, 3, 4, 7, 9]),
  ("Bebop Major", [0, 2, 4, 5, 7, 8, 9, 11]),
  ("Bebop Minor", [0, 2, 3, 5, 7, 8, 9, 10]),
  ("Bebop Dominant", [0, 2, 4, 5, 7, 9, 10, 11]),
  ("Hungarian", [0, 2, 3, 6, 7, 8, 11]),
  ("Hungarian Minor", [0, 2, 3, 6, 7, 8, 11]),
  ("Hungarian Major", [0, 3, 4, 6, 7, 9, 10]),
  ("Gypsy", [0, 1, 4, 5, 7, 8, 11]),
  ("Persian", [0, 1, 4, 5, 6, 8, 11]),
  ("Jewish", [0, 1, 4, 5, 7, 8, 10]),
  ("Enigmatic", [0, 1, 4, 6, 8, 10, 11]),
  ("Neapolitan Minor", [0, 1, 3, 5, 7, 8, 11]),
  ("Neapolitan Major", [0, 1, 3, 5, 7, 9, 11]),
  ("Whole Tone", [0, 2, 4, 6, 8, 10]),
  ("Half-Whole Diminished", [0, 1, 3, 4, 6, 7, 9, 10]),
  ("Whole-Half Diminished", [0, 2, 3, 5, 6, 8, 9, 11]),
  ("Altered", [0, 1, 3, 4, 6, 8, 10]),
  ("Augmented", [0, 3, 4, 7, 8, 11]),
  ("Lydian Augmented", [0, 2, 4, 6, 8, 9, 11]),
  ("Lydian Dominant", [0, 2, 4, 6, 7, 9, 10]),
  ("Raga Malkauns", [0, 3, 5, 8, 10]),
  ("Lydian Minor", [0, 2, 4, 6, 7, 8, 10]),
  ("Mixolydian b6", [0, 2, 4, 5, 7, 8, 10]),
  ("Locrian #2", [0, 2, 3, 5, 6, 8, 10]),
  ("Chromatic", [0, 1, 2, 3, 4, 5, 6, 7, 8, 9, 10, 11]),
  ("Tritone", [0, 1, 4, 6, 7, 10]),
  ("Two-Semitone Tritone", [0, 1, 2, 6, 7, 8]),
  ("Hypophrygian", [0, 2, 4, 5, 6, 9, 10]),
  ("Hypomixolydian", [0, 1, 3, 5, 6, 8, 9]),
  ("Prometheus", [0, 2, 4, 6, 9, 10]),
  ("Scriabin", [0, 1, 4, 7, 9]),
  ("Messiaen Mode 3", [0, 2, 3, 4, 6, 7, 8, 10, 11]),
  ("Messiaen Mode 4", [0, 1, 2, 5, 6, 7, 8, 11]),
  ("Messiaen Mode 5", [0, 1, 5, 6, 7, 11]),
  ("Messiaen Mode 6", [0, 2, 4, 5, 6, 8, 10, 11]),
  ("Messiaen Mode 7", [0, 1, 2, 3, 5, 6, 7, 8, 9, 11]),
  ("Eight Tone Spanish", [0, 1, 3, 4, 5, 6, 8, 10]),
  ("Purvi Theta", [0, 1, 4, 6, 7, 8, 11]),
  ("Todi Theta", [0, 1, 3, 6, 7, 8, 11]),
  ("Marva Theta", [0, 1, 4, 6, 7, 9, 11]),
  ("Ahir Bhairav", [0, 1, 4, 5, 7, 9, 10])]

/-- The inner `for interval in intervals` loop of one octave of
`generate_scale_notes`: append each in-range note, break as soon as a note
exceeds `max_note`.  The returned list is nonempty exactly when the Python
flag `notes_added` is set. -/
def octaveNotes (root_note octave min_note max_note : ℤ) :
    List ℤ → List ℤ
  | [] => []
  | interval :: rest =>
    let note := root_note + octave * 12 + interval
    if min_note ≤ note ∧ note ≤ max_note then
      note :: octaveNotes root_note octave min_note max_note rest
    else if max_note < note then
      []
    else
      octaveNotes root_note octave min_note max_note rest

/-- The `while True` octave loop of `generate_scale_notes`, starting at
`octave`; exits when an octave past the start adds no note, or when the next
octave's root exceeds `max_note`. -/
def scaleLoop (root_note min_note max_note start_octave : ℤ)
    (intervals : List ℤ) (octave : ℤ) : List ℤ :=
  let ns := octaveNotes root_note octave min_note max_note intervals
  if ns.isEmpty ∧ start_octave < octave then
    []
  else if max_note < root_note + (octave + 1) * 12 then
    ns
  else
    ns ++ scaleLoop root_note min_note max_note start_octave intervals (octave + 1)
termination_by (max_note + 12 - root_note - 12 * octave).toNat
decreasing_by
  rename_i _ h2
  simp only [not_lt] at h2
  omega

/-- `scales.generate_scale_notes(root_note, scale_name, note_range)`.
Python `//` and `%` are floor division and floor modulus (`Int.fdiv` /
`Int.emod` for the positive modulus 12); `sorted` is embedded as insertion
sort, which agrees with any sort on integers. -/
def generate_scale_notes (root_note : ℤ) (scale_name : String)
    (note_range : ℤ × ℤ) : List ℤ :=
  let name := if (SCALES.lookup scale_name).isSome then scale_name else "Major"
  let intervals := (SCALES.lookup name).getD []
  let min_note := note_range.1
  let max_note := note_range.2
  let start_octave0 := Int.fdiv (min_note - root_note) 12
  let start_octave :=
    if 0 < Int.emod (min_note - root_note) 12 then start_octave0 + 1
    else start_octave0
  List.insertionSort (· ≤ ·)
    (scaleLoop root_note min_note max_note start_octave intervals start_octave)

/-- The chromatic fallback `list(range(min_note, max_note + 1))`. -/
def chromaticRange (min_note max_note : ℤ) : List ℤ :=
  List.map (fun k : ℕ => min_note + (k : ℤ))
    (List.range (max_note + 1 - min_note).toNat)

/-- `AudioGenerator._create_note_map`, as a function of the generator fields
it reads (`root_note`, `scale_name`, `note_range`) and `total_regions`:
regions `0 .. total_regions-1` cycle through the scale notes, falling back
to the chromatic range when `generate_scale_notes` returns nothing.
(When both lists are empty — only possible for `max_note < min_note` —
Python would raise `ZeroDivisionError` at `i % len(scale_notes)`; the
claims below always assume `min_note < max_note`, which excludes it.) -/
def _create_note_map (root_note : ℤ) (scale_name : String)
    (note_range : ℤ × ℤ) (total_regions : ℕ) : List (ℕ × ℤ) :=
  let scale_notes := generate_scale_notes root_note scale_name note_range
  let scale_notes :=
    if scale_notes.isEmpty then chromaticRange note_range.1 note_range.2
    else scale_notes
  (List.range total_regions).map
    (fun i => (i, scale_notes.getD (i % scale_notes.length) 0))

/-! ### `audio.py`: generator state and configuration-change operations

`AudioState` carries the `AudioGenerator` fields the configuration setters
touch.  `total_regions` is kept implicitly as `grid_width * grid_height`
(the Python field is always equal to that product: it is set from it in
`__init__` and in `set_grid_size`, and nothing else writes it). -/

structure AudioState where
  grid_width : ℕ
  grid_height : ℕ
  note_range : ℤ × ℤ
  scale_name : String
  root_note : ℤ
  note_map : List (ℕ × ℤ)
  current_notes : List (ℤ × ℤ)
  deriving DecidableEq

/-- `self.note_map = self._create_note_map()` reading the current fields. -/
def createNoteMapOf (st : AudioState) : List (ℕ × ℤ) :=
  _create_note_map st.root_note st.scale_name st.note_range
    (st.grid_width * st.grid_height)

/-- Observable actions of a configuration-change operation, in program
order: the write `self.note_map = ...` and each `midi_out.note_off(...)`
issued by `stop_all_notes`. -/
inductive OpAction where
  | replaceMap (m : List (ℕ × ℤ))
  | sinkNoteOff (note velocity : ℤ)
  deriving DecidableEq

/-- `AudioGenerator.stop_all_notes`: send `note_off(note, current_notes[note])`
for every active note, then clear `current_notes`. -/
def stop_all_notes (st : AudioState) : List OpAction × AudioState :=
  (st.current_notes.map (fun p => OpAction.sinkNoteOff p.1 p.2),
   { st with current_notes := [] })

/-- `AudioGenerator.set_scale`: update scale and root, recompute the note
map, then `stop_all_notes()`. -/
def set_scale (st : AudioState) (scale_name : String) (root_note : ℤ) :
    List OpAction × AudioState :=
  let st1 := { st with scale_name := scale_name, root_note := root_note }
  let newMap := createNoteMapOf st1
  let st2 := { st1 with note_map := newMap }
  let flushed := stop_all_notes st2
  (OpAction.replaceMap newMap :: flushed.1, flushed.2)

/-- `AudioGenerator.set_grid_size`: update the grid, recompute the note map,
then `stop_all_notes()`. -/
def set_grid_size (st : AudioState) (width height : ℕ) :
    List OpAction × AudioState :=
  let st1 := { st with grid_width := width, grid_height := height }
  let newMap := createNoteMapOf st1
  let st2 := { st1 with note_map := newMap }
  let flushed := stop_all_notes st2
  (OpAction.replaceMap newMap :: flushed.1, flushed.2)

/-- `AudioGenerator.set_note_range`: update the range, recompute the note
map, then `stop_all_notes()`. -/
def set_note_range (st : AudioState) (min_note max_note : ℤ) :
    List OpAction × AudioState :=
  let st1 := { st with note_range := (min_note, max_note) }
  let newMap := createNoteMapOf st1
  let st2 := { st1 with note_map := newMap }
  let flushed := stop_all_notes st2
  (OpAction.replaceMap newMap :: flushed.1, flushed.2)

/-- The ordering property asserted by the spec for these operations: no
`replaceMap` occurs in the trace until all `sinkNoteOff`s have occurred
(equivalently, once a `replaceMap` has happened no `sinkNoteOff` follows). -/
def offsBeforeReplace (tr : List OpAction) : Bool :=
  (tr.dropWhile (fun a => !(match a with | .replaceMap _ => true | _ => false))).all
    (fun a => !(match a with | .sinkNoteOff _ _ => true | _ => false))

/-! ### `audio.py`: `cleanup`

The trace of calls issued against the shared MIDI output during `cleanup`:
a `note_off` per active note, then `write_short(0xB0 | channel, 123, 0)` for
each of the 16 channels, then `close()`.  (Embedded for the live path:
`midi_out` non-null and no sink write raising.) -/

inductive SinkCall where
  | noteOffCall (note velocity : ℤ)
  | writeShortCall (status data1 data2 : ℕ)
  | closeCall
  deriving DecidableEq

/-- `AudioGenerator.cleanup`: flush every active note, clear the dict, send
the all-controllers-off message on all 16 channels, close the output. -/
def cleanup (current_notes : List (ℤ × ℤ)) :
    List SinkCall × List (ℤ × ℤ) :=
  (current_notes.map (fun p => SinkCall.noteOffCall p.1 p.2)
     ++ (List.range 16).map (fun channel => SinkCall.writeShortCall (0xB0 ||| channel) 123 0)
     ++ [SinkCall.closeCall],
   [])

/-! ### `video.py`: `_decoder_loop` processing-queue backpressure

A bounded FIFO `queue.Queue(maxsize = cap)` is embedded as a list (front =
oldest).  `put_nowait` fails instead of blocking when the queue is full;
`get_nowait` fails instead of blocking when it is empty. -/

def put_nowait {α : Type} (cap : ℕ) (q : List α) (x : α) : Option (List α) :=
  if q.length < cap then some (q ++ [x]) else none

def get_nowait {α : Type} (q : List α) : Option (α × List α) :=
  match q with
  | [] => none
  | x :: rest => some (x, rest)

/-- The processing-queue push of `_decoder_loop`, with the queue state `qMid`
observed at eviction time passed explicitly (in the race-free sequential run
`qMid = q`; a concurrent consumer can only have removed frames by then):
try `put_nowait`; on `queue.Full`, `get_nowait` the oldest and retry the
put, and on a race (`Empty` or `Full` again) simply drop the new frame. -/
def decoderPushRacy {α : Type} (cap : ℕ) (q qMid : List α) (x : α) : List α :=
  match put_nowait cap q x with
  | some q' => q'
  | none =>
    match get_nowait qMid with
    | none => qMid                      -- race: queue emptied; new frame dropped
    | some (_, q') =>
      match put_nowait cap q' x with
      | some q'' => q''
      | none => q'                      -- race: queue refilled; new frame dropped

/-- The race-free (single-producer-step) semantics of the same code path. -/
def decoderPush {α : Type} (cap : ℕ) (q : List α) (x : α) : List α :=
  decoderPushRacy cap q q x

/-! ### Key-set lemmas for the dict embedding -/

theorem mem_keys_dinsert {α β : Type} [DecidableEq α] (a k : α) (v : β)
    (d : List (α × β)) :
    a ∈ (dinsert k v d).map Prod.fst ↔ a = k ∨ a ∈ d.map Prod.fst := by
  induction d with
  | nil => simp [dinsert]
  | cons p rest ih =>
    by_cases hp : p.1 = k
    · subst hp
      simp [dinsert]
    · simp only [dinsert, if_neg hp, List.map_cons, List.mem_cons, ih]
      tauto

theorem nodup_keys_dinsert {α β : Type} [DecidableEq α] (k : α) (v : β)
    (d : List (α × β)) (hd : (d.map Prod.fst).Nodup) :
    ((dinsert k v d).map Prod.fst).Nodup := by
  induction d with
  | nil => simp [dinsert]
  | cons p rest ih =>
    simp only [List.map_cons, List.nodup_cons] at hd
    by_cases hp : p.1 = k
    · subst hp
      have heq : dinsert p.1 v (p :: rest) = (p.1, v) :: rest := by simp [dinsert]
      rw [heq]
      simpa using hd
    · simp only [dinsert, if_neg hp, List.map_cons, List.nodup_cons]
      refine ⟨fun hmem => ?_, ih hd.2⟩
      rcases (mem_keys_dinsert p.1 k v rest).mp hmem with h | h
      · exact hp h
      · exact hd.1 h

theorem derase_sublist {α β : Type} [DecidableEq α] (k : α)
    (d : List (α × β)) : (derase k d).Sublist d := by
  induction d with
  | nil => simp [derase]
  | cons p rest ih =>
    by_cases hp : p.1 = k
    · simp only [derase, if_pos hp]
      exact List.sublist_cons_self p rest
    · simp only [derase, if_neg hp]
      exact ih.cons₂ p

theorem nodup_keys_derase {α β : Type} [DecidableEq α] (k : α)
    (d : List (α × β)) (hd : (d.map Prod.fst).Nodup) :
    ((derase k d).map Prod.fst).Nodup :=
  hd.sublist ((derase_sublist k d).map Prod.fst)

/-! ### Branch lemmas for `processRegion` -/

/-- Events of a frame concerning one note. -/
def filterNote (n : ℤ) (evs : List MidiEvent) : List MidiEvent :=
  evs.filter (fun e => e.note == n)

@[simp] theorem filterNote_nil (n : ℤ) : filterNote n [] = [] := rfl

@[simp] theorem filterNote_append (n : ℤ) (l1 l2 : List MidiEvent) :
    filterNote n (l1 ++ l2) = filterNote n l1 ++ filterNote n l2 := by
  simp [filterNote]

theorem processRegion_skip (P : GenParams) (note_map : List (ℕ × ℤ))
    (evs : List MidiEvent) (cur : List (ℤ × ℤ)) (p : ℕ × ℚ)
    (h : dlookup p.1 note_map = none) :
    processRegion P note_map (evs, cur) p = (evs, cur) := by
  simp [processRegion, h]

theorem processRegion_on (P : GenParams) (note_map : List (ℕ × ℤ))
    (evs : List MidiEvent) (cur : List (ℤ × ℤ)) (r : ℕ) (m : ℚ) (n : ℤ)
    (hm : dlookup r note_map = some n)
    (hplay : P.NOTE_ON_THRESHOLD < m)
    (hinact : dlookup n cur = none) :
    processRegion P note_map (evs, cur) (r, m)
      = (evs ++ [MidiEvent.note_on n (metric_to_velocity P m)],
         dinsert n (metric_to_velocity P m) cur) := by
  simp [processRegion, hm, hplay, hinact]

theorem processRegion_retrigger (P : GenParams) (note_map : List (ℕ × ℤ))
    (evs : List MidiEvent) (cur : List (ℤ × ℤ)) (r : ℕ) (m : ℚ) (n v0 : ℤ)
    (hm : dlookup r note_map = some n)
    (hplay : P.NOTE_ON_THRESHOLD < m)
    (hact : dlookup n cur = some v0)
    (hbig : P.VELOCITY_CHANGE_THRESHOLD < |metric_to_velocity P m - v0|) :
    processRegion P note_map (evs, cur) (r, m)
      = (evs ++ [MidiEvent.note_off n v0,
                 MidiEvent.note_on n (metric_to_velocity P m)],
         dinsert n (metric_to_velocity P m) cur) := by
  simp [processRegion, hm, hplay, hact, hbig]

theorem processRegion_steady (P : GenParams) (note_map : List (ℕ × ℤ))
    (evs : List MidiEvent) (cur : List (ℤ × ℤ)) (r : ℕ) (m : ℚ) (n v0 : ℤ)
    (hm : dlookup r note_map = some n)
    (hplay : P.NOTE_ON_THRESHOLD < m)
    (hact : dlookup n cur = some v0)
    (hsmall : ¬ P.VELOCITY_CHANGE_THRESHOLD < |metric_to_velocity P m - v0|) :
    processRegion P note_map (evs, cur) (r, m) = (evs, cur) := by
  simp [processRegion, hm, hplay, hact, hsmall]

theorem processRegion_off (P : GenParams) (note_map : List (ℕ × ℤ))
    (evs : List MidiEvent) (cur : List (ℤ × ℤ)) (r : ℕ) (m : ℚ) (n v0 : ℤ)
    (hm : dlookup r note_map = some n)
    (hnotplay : ¬ P.NOTE_ON_THRESHOLD < m)
    (hstop : m ≤ P.NOTE_OFF_THRESHOLD)
    (hact : dlookup n cur = some v0) :
    processRegion P note_map (evs, cur) (r, m)
      = (evs ++ [MidiEvent.note_off n v0], derase n cur) := by
  simp [processRegion, hm, hnotplay, hstop, hact]

theorem processRegion_inactive_noplay (P : GenParams) (note_map : List (ℕ × ℤ))
    (evs : List MidiEvent) (cur : List (ℤ × ℤ)) (r : ℕ) (m : ℚ) (n : ℤ)
    (hm : dlookup r note_map = some n)
    (hnotplay : ¬ P.NOTE_ON_THRESHOLD < m)
    (hinact : dlookup n cur = none) :
    processRegion P note_map (evs, cur) (r, m) = (evs, cur) := by
  simp [processRegion, hm, hnotplay, hinact]

theorem processRegion_dead (P : GenParams) (note_map : List (ℕ × ℤ))
    (evs : List MidiEvent) (cur : List (ℤ × ℤ)) (r : ℕ) (m : ℚ) (n : ℤ)
    (hm : dlookup r note_map = some n)
    (hnotplay : ¬ P.NOTE_ON_THRESHOLD < m)
    (hnotstop : ¬ m ≤ P.NOTE_OFF_THRESHOLD) :
    processRegion P note_map (evs, cur) (r, m) = (evs, cur) := by
  simp [processRegion, hm, hnotplay, hnotstop]

/-- The events a region step appends are for the mapped note only, and the
step leaves every other note's activation state alone. -/
theorem processRegion_other_note (P : GenParams) (note_map : List (ℕ × ℤ))
    (evs : List MidiEvent) (cur : List (ℤ × ℤ)) (p : ℕ × ℚ) (n : ℤ)
    (h : dlookup p.1 note_map ≠ some n) :
    filterNote n (processRegion P note_map (evs, cur) p).1 = filterNote n evs ∧
    dlookup n (processRegion P note_map (evs, cur) p).2 = dlookup n cur := by
  obtain ⟨r, m⟩ := p
  rcases hm : dlookup r note_map with _ | n'
  · rw [processRegion_skip P note_map evs cur (r, m) hm]
    exact ⟨rfl, rfl⟩
  · have hne : n' ≠ n := fun he => h (by rw [hm, he])
    by_cases hplay : P.NOTE_ON_THRESHOLD < m
    · rcases hact : dlookup n' cur with _ | v0
      · rw [processRegion_on P note_map evs cur r m n' hm hplay hact]
        refine ⟨?_, dlookup_dinsert_ne n n' _ cur hne⟩
        simp [filterNote, MidiEvent.note, hne]
      · by_cases hbig :
            P.VELOCITY_CHANGE_THRESHOLD < |metric_to_velocity P m - v0|
        · rw [processRegion_retrigger P note_map evs cur r m n' v0 hm hplay hact hbig]
          refine ⟨?_, dlookup_dinsert_ne n n' _ cur hne⟩
          simp [filterNote, MidiEvent.note, hne]
        · rw [processRegion_steady P note_map evs cur r m n' v0 hm hplay hact hbig]
          exact ⟨rfl, rfl⟩
    · by_cases hstop : m ≤ P.NOTE_OFF_THRESHOLD
      · rcases hact : dlookup n' cur with _ | v0
        · rw [processRegion_inactive_noplay P note_map evs cur r m n' hm hplay hact]
          exact ⟨rfl, rfl⟩
        · rw [processRegion_off P note_map evs cur r m n' v0 hm hplay hstop hact]
          refine ⟨?_, dlookup_derase_ne n n' cur hne⟩
          simp [filterNote, MidiEvent.note, hne]
      · rw [processRegion_dead P note_map evs cur r m n' hm hplay hstop]
        exact ⟨rfl, rfl⟩

/-- A region step keeps the `current_notes` keys duplicate-free. -/
theorem processRegion_nodup (P : GenParams) (note_map : List (ℕ × ℤ))
    (evs : List MidiEvent) (cur : List (ℤ × ℤ)) (p : ℕ × ℚ)
    (hd : (cur.map Prod.fst).Nodup) :
    (((processRegion P note_map (evs, cur) p).2).map Prod.fst).Nodup := by
  obtain ⟨r, m⟩ := p
  rcases hm : dlookup r note_map with _ | n'
  · rw [processRegion_skip P note_map evs cur (r, m) hm]; exact hd
  · by_cases hplay : P.NOTE_ON_THRESHOLD < m
    · rcases hact : dlookup n' cur with _ | v0
      · rw [processRegion_on P note_map evs cur r m n' hm hplay hact]
        exact nodup_keys_dinsert n' _ cur hd
      · by_cases hbig :
            P.VELOCITY_CHANGE_THRESHOLD < |metric_to_velocity P m - v0|
        · rw [processRegion_retrigger P note_map evs cur r m n' v0 hm hplay hact hbig]
          exact nodup_keys_dinsert n' _ cur hd
        · rw [processRegion_steady P note_map evs cur r m n' v0 hm hplay hact hbig]
          exact hd
    · by_cases hstop : m ≤ P.NOTE_OFF_THRESHOLD
      · rcases hact : dlookup n' cur with _ | v0
        · rw [processRegion_inactive_noplay P note_map evs cur r m n' hm hplay hact]
          exact hd
        · rw [processRegion_off P note_map evs cur r m n' v0 hm hplay hstop hact]
          exact nodup_keys_derase n' cur hd
      · rw [processRegion_dead P note_map evs cur r m n' hm hplay hstop]
        exact hd

/-- A region step only appends to the accumulated event list. -/
theorem processRegion_append (P : GenParams) (note_map : List (ℕ × ℤ))
    (evs : List MidiEvent) (cur : List (ℤ × ℤ)) (p : ℕ × ℚ) :
    processRegion P note_map (evs, cur) p
      = (evs ++ (processRegion P note_map ([], cur) p).1,
         (processRegion P note_map ([], cur) p).2) := by
  obtain ⟨r, m⟩ := p
  rcases hm : dlookup r note_map with _ | n'
  · rw [processRegion_skip P note_map evs cur (r, m) hm,
        processRegion_skip P note_map [] cur (r, m) hm]
    simp
  · by_cases hplay : P.NOTE_ON_THRESHOLD < m
    · rcases hact : dlookup n' cur with _ | v0
      · rw [processRegion_on P note_map evs cur r m n' hm hplay hact,
            processRegion_on P note_map [] cur r m n' hm hplay hact]
        simp
      · by_cases hbig :
            P.VELOCITY_CHANGE_THRESHOLD < |metric_to_velocity P m - v0|
        · rw [processRegion_retrigger P note_map evs cur r m n' v0 hm hplay hact hbig,
              processRegion_retrigger P note_map [] cur r m n' v0 hm hplay hact hbig]
          simp
        · rw [processRegion_steady P note_map evs cur r m n' v0 hm hplay hact hbig,
              processRegion_steady P note_map [] cur r m n' v0 hm hplay hact hbig]
          simp
    · by_cases hstop : m ≤ P.NOTE_OFF_THRESHOLD
      · rcases hact : dlookup n' cur with _ | v0
        · rw [processRegion_inactive_noplay P note_map evs cur r m n' hm hplay hact,
              processRegion_inactive_noplay P note_map [] cur r m n' hm hplay hact]
          simp
        · rw [processRegion_off P note_map evs cur r m n' v0 hm hplay hstop hact,
              processRegion_off P note_map [] cur r m n' v0 hm hplay hstop hact]
          simp
      · rw [processRegion_dead P note_map evs cur r m n' hm hplay hstop,
            processRegion_dead P note_map [] cur r m n' hm hplay hstop]
        simp

/-- Folding the loop body only appends events; the final state does not
depend on already-accumulated events. -/
theorem gen_foldl_events (P : GenParams) (note_map : List (ℕ × ℤ))
    (l : List (ℕ × ℚ)) :
    ∀ (evs : List MidiEvent) (cur : List (ℤ × ℤ)),
      l.foldl (processRegion P note_map) (evs, cur)
        = (evs ++ (l.foldl (processRegion P note_map) ([], cur)).1,
           (l.foldl (processRegion P note_map) ([], cur)).2) := by
  induction l with
  | nil => intro evs cur; simp
  | cons p rest ih =>
    intro evs cur
    simp only [List.foldl_cons]
    rcases hX : processRegion P note_map ([], cur) p with ⟨E, S⟩
    rw [processRegion_append P note_map evs cur p, hX]
    rw [ih (evs ++ E) S, ih E S]
    simp [List.append_assoc]

/-- Regions whose note is not `n` never emit an event for `n` nor change its
activation state, across a whole frame. -/
theorem gen_foldl_other (P : GenParams) (note_map : List (ℕ × ℤ)) (n : ℤ)
    (l : List (ℕ × ℚ)) (hl : ∀ p ∈ l, dlookup p.1 note_map ≠ some n) :
    ∀ cur : List (ℤ × ℤ),
      filterNote n (l.foldl (processRegion P note_map) ([], cur)).1 = [] ∧
      dlookup n (l.foldl (processRegion P note_map) ([], cur)).2 = dlookup n cur := by
  induction l with
  | nil => intro cur; simp
  | cons p rest ih =>
    intro cur
    simp only [List.foldl_cons]
    rcases hX : processRegion P note_map ([], cur) p with ⟨E, S⟩
    have hother := processRegion_other_note P note_map [] cur p n
      (hl p (List.mem_cons_self p rest))
    rw [hX] at hother
    have hrest := ih (fun q hq => hl q (List.mem_cons_of_mem p hq)) S
    rw [gen_foldl_events P note_map rest E S]
    constructor
    · simp only [filterNote_append]
      rw [hrest.1, hother.1]
      rfl
    · rw [hrest.2, hother.2]

/-- A whole frame keeps the `current_notes` keys duplicate-free. -/
theorem gen_foldl_nodup (P : GenParams) (note_map : List (ℕ × ℤ))
    (l : List (ℕ × ℚ)) :
    ∀ (evs : List MidiEvent) (cur : List (ℤ × ℤ)),
      (cur.map Prod.fst).Nodup →
      (((l.foldl (processRegion P note_map) (evs, cur)).2).map Prod.fst).Nodup := by
  induction l with
  | nil => intro evs cur h; simpa using h
  | cons p rest ih =>
    intro evs cur h
    simp only [List.foldl_cons]
    rcases hX : processRegion P note_map (evs, cur) p with ⟨E, S⟩
    have hS : (S.map Prod.fst).Nodup := by
      have hn := processRegion_nodup P note_map evs cur p h
      rw [hX] at hn
      exact hn
    exact ih E S hS

/-- Splitting a list around the unique element its filter retains. -/
theorem filter_singleton_split {α : Type} (f : α → Bool) (l : List α) (a : α)
    (h : l.filter f = [a]) :
    ∃ l1 l2, l = l1 ++ a :: l2 ∧ l1.filter f = [] ∧ l2.filter f = [] ∧
      f a = true := by
  induction l with
  | nil => simp at h
  | cons x rest ih =>
    by_cases hx : f x
    · rw [List.filter_cons_of_pos hx] at h
      injection h with h1 h2
      subst h1
      exact ⟨[], rest, rfl, rfl, h2, hx⟩
    · rw [List.filter_cons_of_neg hx] at h
      obtain ⟨l1, l2, rfl, hf1, hf2, hfa⟩ := ih h
      exact ⟨x :: l1, l2, rfl, by rw [List.filter_cons_of_neg hx, hf1], hf2, hfa⟩

/-! ### Claim C1 -/

/-- C1: in a frame processed by `generate_midi_events`, for a note `n`
whose (unique) region carries metric value `m`: if `m > on_threshold` and
`n` is not active, exactly one `note_on` is emitted for `n` this frame and
`n` becomes active with the computed velocity; if `m ≤ off_threshold` and
`n` is active, exactly one `note_off` with the last-sent velocity is
emitted and `n` is removed; if `off_threshold < m ≤ on_threshold` and `n`
is not active, no event at all is emitted for `n` (hysteresis dead-band). -/
theorem note_state_machine_hysteresis (P : GenParams)
    (note_map : List (ℕ × ℤ)) (st : List (ℤ × ℤ)) (l : List (ℕ × ℚ))
    (n : ℤ) (r : ℕ) (m : ℚ)
    (hthr : P.NOTE_OFF_THRESHOLD ≤ P.NOTE_ON_THRESHOLD)
    (hnd : (st.map Prod.fst).Nodup)
    (hone : l.filter (fun p => dlookup p.1 note_map == some n) = [(r, m)]) :
    (P.NOTE_ON_THRESHOLD < m → dlookup n st = none →
       filterNote n (generate_midi_events P note_map st l).1
         = [MidiEvent.note_on n (metric_to_velocity P m)] ∧
       dlookup n (generate_midi_events P note_map st l).2
         = some (metric_to_velocity P m)) ∧
    (∀ v0 : ℤ, m ≤ P.NOTE_OFF_THRESHOLD → dlookup n st = some v0 →
       filterNote n (generate_midi_events P note_map st l).1
         = [MidiEvent.note_off n v0] ∧
       dlookup n (generate_midi_events P note_map st l).2 = none) ∧
    (P.NOTE_OFF_THRESHOLD < m → m ≤ P.NOTE_ON_THRESHOLD →
       dlookup n st = none →
       filterNote n (generate_midi_events P note_map st l).1 = [] ∧
       dlookup n (generate_midi_events P note_map st l).2 = none) := by
  obtain ⟨l1, l2, rfl, hf1, hf2, hfa⟩ := filter_singleton_split _ l (r, m) hone
  have hr : dlookup r note_map = some n := eq_of_beq hfa
  have hl1 : ∀ p ∈ l1, dlookup p.1 note_map ≠ some n := by
    rw [List.filter_eq_nil_iff] at hf1
    exact fun p hp he => hf1 p hp (beq_iff_eq.mpr he)
  have hl2 : ∀ p ∈ l2, dlookup p.1 note_map ≠ some n := by
    rw [List.filter_eq_nil_iff] at hf2
    exact fun p hp he => hf2 p hp (beq_iff_eq.mpr he)
  rcases hA : l1.foldl (processRegion P note_map) ([], st) with ⟨E1, S1⟩
  have hother1 := gen_foldl_other P note_map n l1 hl1 st
  rw [hA] at hother1
  have hnd1 : (S1.map Prod.fst).Nodup := by
    have h := gen_foldl_nodup P note_map l1 [] st hnd
    rw [hA] at h
    exact h
  have hmain : generate_midi_events P note_map st (l1 ++ (r, m) :: l2)
      = l2.foldl (processRegion P note_map)
          (processRegion P note_map (E1, S1) (r, m)) := by
    show (l1 ++ (r, m) :: l2).foldl (processRegion P note_map) ([], st) = _
    rw [List.foldl_append, hA, List.foldl_cons]
  refine ⟨fun hplay hinact => ?_, fun v0 hstop hact => ?_,
    fun hoff hon hinact => ?_⟩
  · have hS1n : dlookup n S1 = none := by rw [hother1.2, hinact]
    rw [hmain, processRegion_on P note_map E1 S1 r m n hr hplay hS1n,
        gen_foldl_events P note_map l2 _ _]
    rcases hB : l2.foldl (processRegion P note_map)
        ([], dinsert n (metric_to_velocity P m) S1) with ⟨E2, S2⟩
    have hother2 := gen_foldl_other P note_map n l2 hl2
      (dinsert n (metric_to_velocity P m) S1)
    rw [hB] at hother2
    constructor
    · simp only [filterNote_append, hother1.1, hother2.1, List.nil_append,
        List.append_nil]
      simp [filterNote, MidiEvent.note]
    · rw [hother2.2, dlookup_dinsert_self]
  · have hS1n : dlookup n S1 = some v0 := by rw [hother1.2, hact]
    have hnotplay : ¬ P.NOTE_ON_THRESHOLD < m :=
      fun hlt => absurd hstop (not_le.mpr (lt_of_le_of_lt hthr hlt))
    rw [hmain, processRegion_off P note_map E1 S1 r m n v0 hr hnotplay hstop hS1n,
        gen_foldl_events P note_map l2 _ _]
    rcases hB : l2.foldl (processRegion P note_map) ([], derase n S1) with ⟨E2, S2⟩
    have hother2 := gen_foldl_other P note_map n l2 hl2 (derase n S1)
    rw [hB] at hother2
    constructor
    · simp only [filterNote_append, hother1.1, hother2.1, List.nil_append,
        List.append_nil]
      simp [filterNote, MidiEvent.note]
    · rw [hother2.2, dlookup_derase_self n S1 hnd1]
  · have hS1n : dlookup n S1 = none := by rw [hother1.2, hinact]
    have hnotplay : ¬ P.NOTE_ON_THRESHOLD < m := not_lt.mpr hon
    rw [hmain, processRegion_inactive_noplay P note_map E1 S1 r m n hr hnotplay hS1n,
        gen_foldl_events P note_map l2 _ _]
    rcases hB : l2.foldl (processRegion P note_map) ([], S1) with ⟨E2, S2⟩
    have hother2 := gen_foldl_other P note_map n l2 hl2 S1
    rw [hB] at hother2
    constructor
    · simp only [filterNote_append, hother1.1, hother2.1, List.nil_append,
        List.append_nil]
    · rw [hother2.2, hS1n]

/-- C1 witness: single region 0 mapped to note 60, inactive, metric 1/5
above the default on-threshold 1/10 ⇒ exactly `note_on(60, 25)`. -/
theorem note_state_machine_hysteresis_witness :
    filterNote 60 (generate_midi_events defaultParams [(0, 60)] []
        [(0, 1/5)]).1 = [MidiEvent.note_on 60 25] ∧
    dlookup 60 (generate_midi_events defaultParams [(0, 60)] []
        [(0, 1/5)]).2 = some 25 := by
  have hv : metric_to_velocity defaultParams (1/5) = 25 := by
    norm_num [metric_to_velocity, pyInt, defaultParams]
  have h := (note_state_machine_hysteresis defaultParams [(0, 60)] []
      [(0, 1/5)] 60 0 (1/5)
      (by norm_num [defaultParams])
      (by simp)
      (by simp [dlookup])).1
    (by norm_num [defaultParams]) rfl
  rw [hv] at h
  exact h

/-! ### Claim C2 -/

/-- C2 counterexample: at metric value 1/50 ∈ [0,1] with sensitivity 1, the
code computes `int(2.54) = 2` (truncation) while the spec formula
`clamp(round(2.54), 0, 127)` gives 3. -/
theorem velocity_formula_counterexample :
    metric_to_velocity defaultParams (1/50)
      ≠ metric_to_velocity_roundSpec defaultParams (1/50) := by
  have h1 : metric_to_velocity defaultParams (1/50) = 2 := by
    norm_num [metric_to_velocity, pyInt, defaultParams]
  have h2 : metric_to_velocity_roundSpec defaultParams (1/50) = 3 := by
    norm_num [metric_to_velocity_roundSpec, defaultParams, round_eq]
  rw [h1, h2]
  decide

/-- C2 amended: for every metric value `m ≥ 0` and sensitivity `≥ 0`, the
velocity equals `clamp(trunc(m * 127 * sensitivity), 0, 127)`, where the
truncation toward zero of the non-negative product is its floor. -/
theorem velocity_formula_trunc (P : GenParams) (m : ℚ)
    (hm : 0 ≤ m) (hs : 0 ≤ P.sensitivity) :
    metric_to_velocity P m = metric_to_velocity_floorSpec P m := by
  unfold metric_to_velocity metric_to_velocity_floorSpec pyInt
  have hprod : (0:ℚ) ≤ m * 127 * P.sensitivity := by positivity
  rw [if_pos hprod]

/-- C2 amended witness at `m = 1/50`, sensitivity 1. -/
theorem velocity_formula_trunc_witness :
    (0:ℚ) ≤ 1/50 ∧ (0:ℚ) ≤ defaultParams.sensitivity ∧
    metric_to_velocity defaultParams (1/50)
      = metric_to_velocity_floorSpec defaultParams (1/50) :=
  ⟨by norm_num, by norm_num [defaultParams],
   velocity_formula_trunc defaultParams (1/50) (by norm_num)
     (by norm_num [defaultParams])⟩

/-! ### Claim C3 -/

/-- C3: for a note `n` already active with stored velocity `v0` whose
(unique) region carries metric value `m > on_threshold`: if the new
velocity differs from `v0` by more than `velocity_change_threshold`, the
frame emits exactly `note_off(n, v0)` immediately followed by
`note_on(n, velocity)` and stores the new velocity; otherwise it emits no
event for `n` and the stored velocity is unchanged. -/
theorem retrigger_on_velocity_change (P : GenParams)
    (note_map : List (ℕ × ℤ)) (st : List (ℤ × ℤ)) (l : List (ℕ × ℚ))
    (n v0 : ℤ) (r : ℕ) (m : ℚ)
    (hone : l.filter (fun p => dlookup p.1 note_map == some n) = [(r, m)])
    (hplay : P.NOTE_ON_THRESHOLD < m)
    (hact : dlookup n st = some v0) :
    (P.VELOCITY_CHANGE_THRESHOLD < |metric_to_velocity P m - v0| →
       filterNote n (generate_midi_events P note_map st l).1
         = [MidiEvent.note_off n v0,
            MidiEvent.note_on n (metric_to_velocity P m)] ∧
       dlookup n (generate_midi_events P note_map st l).2
         = some (metric_to_velocity P m)) ∧
    (¬ P.VELOCITY_CHANGE_THRESHOLD < |metric_to_velocity P m - v0| →
       filterNote n (generate_midi_events P note_map st l).1 = [] ∧
       dlookup n (generate_midi_events P note_map st l).2 = some v0) := by
  obtain ⟨l1, l2, rfl, hf1, hf2, hfa⟩ := filter_singleton_split _ l (r, m) hone
  have hr : dlookup r note_map = some n := eq_of_beq hfa
  have hl1 : ∀ p ∈ l1, dlookup p.1 note_map ≠ some n := by
    rw [List.filter_eq_nil_iff] at hf1
    exact fun p hp he => hf1 p hp (beq_iff_eq.mpr he)
  have hl2 : ∀ p ∈ l2, dlookup p.1 note_map ≠ some n := by
    rw [List.filter_eq_nil_iff] at hf2
    exact fun p hp he => hf2 p hp (beq_iff_eq.mpr he)
  rcases hA : l1.foldl (processRegion P note_map) ([], st) with ⟨E1, S1⟩
  have hother1 := gen_foldl_other P note_map n l1 hl1 st
  rw [hA] at hother1
  have hS1n : dlookup n S1 = some v0 := by rw [hother1.2, hact]
  have hmain : generate_midi_events P note_map st (l1 ++ (r, m) :: l2)
      = l2.foldl (processRegion P note_map)
          (processRegion P note_map (E1, S1) (r, m)) := by
    show (l1 ++ (r, m) :: l2).foldl (processRegion P note_map) ([], st) = _
    rw [List.foldl_append, hA, List.foldl_cons]
  refine ⟨fun hbig => ?_, fun hsmall => ?_⟩
  · rw [hmain, processRegion_retrigger P note_map E1 S1 r m n v0 hr hplay hS1n hbig,
        gen_foldl_events P note_map l2 _ _]
    rcases hB : l2.foldl (processRegion P note_map)
        ([], dinsert n (metric_to_velocity P m) S1) with ⟨E2, S2⟩
    have hother2 := gen_foldl_other P note_map n l2 hl2
      (dinsert n (metric_to_velocity P m) S1)
    rw [hB] at hother2
    constructor
    · simp only [filterNote_append, hother1.1, hother2.1, List.nil_append,
        List.append_nil]
      simp [filterNote, MidiEvent.note]
    · rw [hother2.2, dlookup_dinsert_self]
  · rw [hmain, processRegion_steady P note_map E1 S1 r m n v0 hr hplay hS1n hsmall,
        gen_foldl_events P note_map l2 _ _]
    rcases hB : l2.foldl (processRegion P note_map) ([], S1) with ⟨E2, S2⟩
    have hother2 := gen_foldl_other P note_map n l2 hl2 S1
    rw [hB] at hother2
    constructor
    · simp only [filterNote_append, hother1.1, hother2.1, List.nil_append,
        List.append_nil]
    · rw [hother2.2, hS1n]

/-- C3 witness: note 60 active at velocity 25, metric 1 ⇒ new velocity 127,
|127 − 25| > 10 ⇒ re-trigger `note_off(60,25)`, `note_on(60,127)`. -/
theorem retrigger_on_velocity_change_witness :
    filterNote 60 (generate_midi_events defaultParams [(0, 60)] [(60, 25)]
        [(0, 1)]).1
      = [MidiEvent.note_off 60 25, MidiEvent.note_on 60 127] ∧
    dlookup 60 (generate_midi_events defaultParams [(0, 60)] [(60, 25)]
        [(0, 1)]).2 = some 127 := by
  have hv : metric_to_velocity defaultParams 1 = 127 := by
    norm_num [metric_to_velocity, pyInt, defaultParams]
  have h := (retrigger_on_velocity_change defaultParams [(0, 60)] [(60, 25)]
      [(0, 1)] 60 25 0 1
      (by simp [dlookup])
      (by norm_num [defaultParams])
      (by simp [dlookup])).1
    (by rw [hv]; decide)
  rw [hv] at h
  exact h

/-! ### Claim C4 -/

/-- C4: evaluation of the code at the failing input.  `generate_midi_events`
resolves every region through `note_map` alone — the function has no
per-region-override input at all (`custom_note_mapping` is declared and
written in `tracks.py` but never read in `audio.py`) — so a region whose
track-level override is `-1` (never produce sound) still emits
`note_on(NoteMap[0], 127)` when its metric is high. -/
theorem note_resolution_ignores_override :
    generate_midi_events defaultParams [(0, 60)] [] [(0, 1)]
      = ([MidiEvent.note_on 60 127], [(60, 127)]) := by
  have hv : metric_to_velocity defaultParams 1 = 127 := by
    norm_num [metric_to_velocity, pyInt, defaultParams]
  show processRegion defaultParams [(0, 60)] ([], []) (0, 1) = _
  rw [processRegion_on defaultParams [(0, 60)] [] [] 0 1 60 (by simp [dlookup])
      (by norm_num [defaultParams]) rfl, hv]
  rfl

/-! ### Claim C5 -/

/-- A generator state with one active note, used to exhibit the operation
order of the configuration setters. -/
def exampleState : AudioState :=
  { grid_width := 1, grid_height := 1, note_range := (60, 72),
    scale_name := "Major", root_note := 60,
    note_map := [(0, 60)], current_notes := [(60, 100)] }

/-- C5 counterexample: `set_scale` invoked with an active note yields the
trace `[replaceMap …, sinkNoteOff 60 100]` — the NoteMap is replaced
*before* the active note receives its `note_off`, so the claimed ordering
(no NoteMap replacement until all note_offs are sent) is false. -/
theorem config_change_order_counterexample :
    offsBeforeReplace (set_scale exampleState "Minor" 60).1 = false := by
  rfl

/-- C5 amended: every configuration-change operation (scale/root, grid
size, note range) consists of the NoteMap replacement followed — within the
same operation, but after the replacement, not before it — by a `note_off`
for every previously active note with its last-sent velocity; afterwards
ActiveNotes is empty. -/
theorem config_change_flushes_all_notes (st : AudioState) (scale : String)
    (root : ℤ) (w h : ℕ) (mn mx : ℤ) :
    ((set_scale st scale root).1
        = OpAction.replaceMap
            (createNoteMapOf { st with scale_name := scale, root_note := root })
          :: st.current_notes.map (fun p => OpAction.sinkNoteOff p.1 p.2) ∧
      (set_scale st scale root).2.current_notes = []) ∧
    ((set_grid_size st w h).1
        = OpAction.replaceMap
            (createNoteMapOf { st with grid_width := w, grid_height := h })
          :: st.current_notes.map (fun p => OpAction.sinkNoteOff p.1 p.2) ∧
      (set_grid_size st w h).2.current_notes = []) ∧
    ((set_note_range st mn mx).1
        = OpAction.replaceMap
            (createNoteMapOf { st with note_range := (mn, mx) })
          :: st.current_notes.map (fun p => OpAction.sinkNoteOff p.1 p.2) ∧
      (set_note_range st mn mx).2.current_notes = []) :=
  ⟨⟨rfl, rfl⟩, ⟨rfl, rfl⟩, ⟨rfl, rfl⟩⟩

/-! ### Claim C6 -/

/-- `config.py`: `VideoConfig.PROCESSING_QUEUE_SIZE`. -/
def PROCESSING_QUEUE_SIZE : ℕ := 200

/-- C6: with the processing queue at capacity, the decoder's push evicts the
oldest queued frame and enqueues the new one; a push never grows the queue
beyond its bound; and the push path never blocks — in the eviction race
where the queue was concurrently emptied, the new frame is simply dropped
rather than raising or blocking. -/
theorem processing_queue_backpressure {α : Type} (cap : ℕ) (q : List α)
    (x : α) (hcap : 1 ≤ cap) (hfull : q.length = cap) :
    decoderPush cap q x = q.tail ++ [x] ∧
    (decoderPush cap q x).length = cap ∧
    (∀ q' : List α, q'.length ≤ cap → (decoderPush cap q' x).length ≤ cap) ∧
    decoderPushRacy cap q [] x = [] := by
  have hput : put_nowait cap q x = none := by
    simp [put_nowait, hfull]
  have hq : q ≠ [] := by
    intro h
    rw [h] at hfull
    simp at hfull
    omega
  obtain ⟨y, rest, rfl⟩ := List.exists_cons_of_ne_nil hq
  have hrest : rest.length + 1 = cap := by simpa using hfull
  have hput2 : put_nowait cap rest x = some (rest ++ [x]) := by
    simp only [put_nowait, if_pos (by omega : rest.length < cap)]
  have hev : decoderPush cap (y :: rest) x = rest ++ [x] := by
    simp [decoderPush, decoderPushRacy, hput, get_nowait, hput2]
  refine ⟨hev, ?_, ?_, ?_⟩
  · rw [hev]
    simpa using hrest
  · intro q' hq'
    rcases lt_or_eq_of_le hq' with hlt | heq
    · have : put_nowait cap q' x = some (q' ++ [x]) := by
        simp [put_nowait, hlt]
      simp [decoderPush, decoderPushRacy, this]
      omega
    · have hput' : put_nowait cap q' x = none := by
        simp [put_nowait, heq]
      rcases q' with _ | ⟨z, zs⟩
      · simp [decoderPush, decoderPushRacy, hput', get_nowait]
      · have hzs : zs.length + 1 = cap := by simpa using heq
        have : put_nowait cap zs x = some (zs ++ [x]) := by
          simp only [put_nowait, if_pos (by omega : zs.length < cap)]
        simp [decoderPush, decoderPushRacy, hput', get_nowait, this]
        omega
  · simp [decoderPushRacy, hput, get_nowait]

/-- C6 witness at the configured capacity 200, with a full queue of
200 frames. -/
theorem processing_queue_backpressure_witness :
    decoderPush PROCESSING_QUEUE_SIZE (List.replicate 200 (0 : ℕ)) 7
        = (List.replicate 200 (0 : ℕ)).tail ++ [7] ∧
    (decoderPush PROCESSING_QUEUE_SIZE (List.replicate 200 (0 : ℕ)) 7).length
        = PROCESSING_QUEUE_SIZE ∧
    (∀ q' : List ℕ, q'.length ≤ PROCESSING_QUEUE_SIZE →
      (decoderPush PROCESSING_QUEUE_SIZE q' 7).length ≤ PROCESSING_QUEUE_SIZE) ∧
    decoderPushRacy PROCESSING_QUEUE_SIZE (List.replicate 200 (0 : ℕ)) [] 7 = [] :=
  processing_queue_backpressure PROCESSING_QUEUE_SIZE (List.replicate 200 0) 7
    (by norm_num [PROCESSING_QUEUE_SIZE])
    (by rw [List.length_replicate]; rfl)

/-! ### Claim C8 -/

/-- C8: `cleanup` invoked with exactly 3 active notes issues exactly those
3 `note_off` calls (each with that note's last-sent velocity), then the
panic message (controller 123, value 0) on each of channels 0–15, then the
single final `close`; afterwards no note is active. -/
theorem cleanup_flush_then_panic_then_close (n1 v1 n2 v2 n3 v3 : ℤ) :
    (cleanup [(n1, v1), (n2, v2), (n3, v3)]).1
      = [SinkCall.noteOffCall n1 v1, SinkCall.noteOffCall n2 v2,
         SinkCall.noteOffCall n3 v3]
        ++ (List.range 16).map
            (fun channel => SinkCall.writeShortCall (0xB0 ||| channel) 123 0)
        ++ [SinkCall.closeCall] ∧
    ((cleanup [(n1, v1), (n2, v2), (n3, v3)]).1.filter
        (fun c => match c with | SinkCall.noteOffCall _ _ => true | _ => false)).length
      = 3 ∧
    ((cleanup [(n1, v1), (n2, v2), (n3, v3)]).1.getLast?) = some SinkCall.closeCall ∧
    (cleanup [(n1, v1), (n2, v2), (n3, v3)]).2 = [] := by
  refine ⟨rfl, ?_, ?_, rfl⟩
  · rfl
  · rfl

/-! ### Claim C7 -/

theorem pentatonic_lookup :
    SCALES.lookup "Pentatonic Major" = some [0, 2, 4, 7, 9] := by
  rfl

theorem pentatonic_scaleLoop :
    scaleLoop 60 60 72 0 [0, 2, 4, 7, 9] 0 = [60, 62, 64, 67, 69, 72] := by
  rw [scaleLoop.eq_def]
  norm_num [octaveNotes]
  rw [scaleLoop.eq_def]
  norm_num [octaveNotes]

theorem pentatonic_scale_notes :
    generate_scale_notes 60 "Pentatonic Major" (60, 72)
      = [60, 62, 64, 67, 69, 72] := by
  have h1 : Int.fdiv ((60, 72).1 - 60 : ℤ) 12 = 0 := by decide
  have h2 : ¬ (0 : ℤ) < Int.emod ((60, 72).1 - 60 : ℤ) 12 := by decide
  unfold generate_scale_notes
  rw [pentatonic_lookup]
  simp only [Option.isSome_some, if_pos, Option.getD_some, h1, if_neg h2]
  rw [pentatonic_lookup]
  simp only [Option.getD_some]
  rw [pentatonic_scaleLoop]
  decide

/-- C7: scale "Pentatonic Major", root 60, range (60,72), 1×5 grid ⇒
NoteMap is {0:60, 1:62, 2:64, 3:67, 4:69}. -/
theorem pentatonic_scenario_note_map :
    _create_note_map 60 "Pentatonic Major" (60, 72) (1 * 5)
      = [(0, 60), (1, 62), (2, 64), (3, 67), (4, 69)] := by
  unfold _create_note_map
  rw [pentatonic_scale_notes]
  decide

/-! ### Claim C9 -/

/-- C9: the NoteMap is a pure function of
`(root_note, scale_name, note_range, grid_width, grid_height)`: two calls
with identical inputs produce identical mappings. -/
theorem note_map_deterministic (r1 r2 : ℤ) (s1 s2 : String)
    (nr1 nr2 : ℤ × ℤ) (w1 w2 h1 h2 : ℕ)
    (hr : r1 = r2) (hs : s1 = s2) (hnr : nr1 = nr2) (hw : w1 = w2)
    (hh : h1 = h2) :
    _create_note_map r1 s1 nr1 (w1 * h1) = _create_note_map r2 s2 nr2 (w2 * h2) := by
  subst hr
  subst hs
  subst hnr
  subst hw
  subst hh
  rfl

/-- C9 witness at a concrete repeated input. -/
theorem note_map_deterministic_witness :
    _create_note_map 60 "Pentatonic Major" (60, 72) (1 * 5)
      = _create_note_map 60 "Pentatonic Major" (60, 72) (1 * 5) :=
  note_map_deterministic 60 60 "Pentatonic Major" "Pentatonic Major"
    (60, 72) (60, 72) 1 1 5 5 rfl rfl rfl rfl rfl

/-! ### Claim C10 -/

theorem octaveNotes_mem (root oct mn mx : ℤ) (ints : List ℤ) :
    ∀ x ∈ octaveNotes root oct mn mx ints, mn ≤ x ∧ x ≤ mx := by
  induction ints with
  | nil => intro x hx; simp [octaveNotes] at hx
  | cons i rest ih =>
    intro x hx
    simp only [octaveNotes] at hx
    split at hx
    · rcases List.mem_cons.mp hx with rfl | hx'
      · rename_i hcond
        exact hcond
      · exact ih x hx'
    · split at hx
      · simp at hx
      · exact ih x hx

theorem scaleLoop_mem (root mn mx s : ℤ) (ints : List ℤ) (oct : ℤ) :
    ∀ x ∈ scaleLoop root mn mx s ints oct, mn ≤ x ∧ x ≤ mx := by
  intro x hx
  rw [scaleLoop.eq_def] at hx
  simp only [] at hx
  split at hx
  · simp at hx
  · split at hx
    · exact octaveNotes_mem root oct mn mx ints x hx
    · rcases List.mem_append.mp hx with hx' | hx'
      · exact octaveNotes_mem root oct mn mx ints x hx'
      · exact scaleLoop_mem root mn mx s ints (oct + 1) x hx'
termination_by (mx + 12 - root - 12 * oct).toNat
decreasing_by
  rename_i _ h2
  simp only [not_lt] at h2
  omega

theorem generate_scale_notes_mem (root : ℤ) (scale : String) (mn mx : ℤ) :
    ∀ x ∈ generate_scale_notes root scale (mn, mx), mn ≤ x ∧ x ≤ mx := by
  intro x hx
  unfold generate_scale_notes at hx
  rw [(List.perm_insertionSort _ _).mem_iff] at hx
  exact scaleLoop_mem root mn mx _ _ _ x hx

theorem list_getD_mem {α : Type} (l : List α) (n : ℕ) (d : α)
    (h : n < l.length) : l.getD n d ∈ l := by
  rw [List.getD_eq_getElem l d h]
  exact List.getElem_mem h

theorem chromaticRange_mem (mn mx : ℤ) :
    ∀ x ∈ chromaticRange mn mx, mn ≤ x ∧ x ≤ mx := by
  intro x hx
  unfold chromaticRange at hx
  rw [List.mem_map] at hx
  obtain ⟨k, hk, rfl⟩ := hx
  rw [List.mem_range] at hk
  omega

theorem chromaticRange_length (mn mx : ℤ) :
    (chromaticRange mn mx).length = (mx + 1 - mn).toNat := by
  unfold chromaticRange
  rw [List.length_map, List.length_range]

/-- The invariant of `_create_note_map` for one call: keys are exactly the
region indices and every value lies within the note range. -/
theorem create_note_map_invariant (root : ℤ) (scale : String) (mn mx : ℤ)
    (tot : ℕ) (hr : mn < mx) :
    ((_create_note_map root scale (mn, mx) tot).map Prod.fst
        = List.range tot) ∧
    ∀ p ∈ _create_note_map root scale (mn, mx) tot,
      mn ≤ p.2 ∧ p.2 ≤ mx := by
  set sn := generate_scale_notes root scale (mn, mx) with hsn
  set sn2 := if sn.isEmpty then chromaticRange (mn, mx).1 (mn, mx).2 else sn
    with hsn2
  have hmap : _create_note_map root scale (mn, mx) tot
      = (List.range tot).map (fun i => (i, sn2.getD (i % sn2.length) 0)) := rfl
  have hmem_sn2 : ∀ x ∈ sn2, mn ≤ x ∧ x ≤ mx := by
    intro x hx
    rw [hsn2] at hx
    split at hx
    · exact chromaticRange_mem mn mx x hx
    · rw [hsn] at hx
      exact generate_scale_notes_mem root scale mn mx x hx
  have hlen : 0 < sn2.length := by
    rw [hsn2]
    split
    · rw [chromaticRange_length]
      omega
    · rename_i hne
      exact List.length_pos.mpr (fun he => hne (by rw [he]; rfl))
  constructor
  · rw [hmap, List.map_map]
    exact List.map_id _
  · intro p hp
    rw [hmap] at hp
    simp only [List.mem_map, List.mem_range] at hp
    obtain ⟨i, hi, rfl⟩ := hp
    exact hmem_sn2 _ (list_getD_mem sn2 _ 0 (Nat.mod_lt _ hlen))

/-- C10: for every root, scale name, range with `min < max` and grid
dimensions ≥ 1, the note map's keys are exactly the region indices
`0 … w*h−1` and every mapped note lies in `[min, max]` (through the Major
and chromatic fallbacks alike); and each of `set_scale`, `set_grid_size`,
`set_note_range` re-establishes the invariant on the state it produces. -/
theorem note_map_invariant (root : ℤ) (scale : String) (mn mx : ℤ) (w h : ℕ)
    (_hw : 1 ≤ w) (_hh : 1 ≤ h) (hr : mn < mx) :
    ((_create_note_map root scale (mn, mx) (w * h)).map Prod.fst
        = List.range (w * h) ∧
     ∀ p ∈ _create_note_map root scale (mn, mx) (w * h),
        mn ≤ p.2 ∧ p.2 ≤ mx) ∧
    (∀ st : AudioState, st.note_range = (mn, mx) → st.grid_width = w →
      st.grid_height = h →
      ((set_scale st scale root).2.note_map.map Prod.fst = List.range (w * h) ∧
       ∀ p ∈ (set_scale st scale root).2.note_map, mn ≤ p.2 ∧ p.2 ≤ mx) ∧
      ((set_grid_size st w h).2.note_map.map Prod.fst = List.range (w * h) ∧
       ∀ p ∈ (set_grid_size st w h).2.note_map, mn ≤ p.2 ∧ p.2 ≤ mx) ∧
      ((set_note_range st mn mx).2.note_map.map Prod.fst = List.range (w * h) ∧
       ∀ p ∈ (set_note_range st mn mx).2.note_map,
          mn ≤ p.2 ∧ p.2 ≤ mx)) := by
  refine ⟨create_note_map_invariant root scale mn mx (w * h) hr,
    fun st h1 h2 h3 => ?_⟩
  have e1 : (set_scale st scale root).2.note_map
      = _create_note_map root scale st.note_range
          (st.grid_width * st.grid_height) := rfl
  have e2 : (set_grid_size st w h).2.note_map
      = _create_note_map st.root_note st.scale_name st.note_range (w * h) := rfl
  have e3 : (set_note_range st mn mx).2.note_map
      = _create_note_map st.root_note st.scale_name (mn, mx)
          (st.grid_width * st.grid_height) := rfl
  rw [e1, e2, e3, h1, h2, h3]
  exact ⟨create_note_map_invariant root scale mn mx (w * h) hr,
    create_note_map_invariant st.root_note st.scale_name mn mx (w * h) hr,
    create_note_map_invariant st.root_note st.scale_name mn mx (w * h) hr⟩

/-- C10 witness at root 60, "Pentatonic Major", range (60,72), 20×1 grid
(the defaults of `config.py`). -/
theorem note_map_invariant_witness :
    ((_create_note_map 60 "Pentatonic Major" (60, 72) (20 * 1)).map Prod.fst
        = List.range (20 * 1) ∧
     ∀ p ∈ _create_note_map 60 "Pentatonic Major" (60, 72) (20 * 1),
        (60:ℤ) ≤ p.2 ∧ p.2 ≤ 72) ∧
    (∀ st : AudioState, st.note_range = (60, 72) → st.grid_width = 20 →
      st.grid_height = 1 →
      ((set_scale st "Pentatonic Major" 60).2.note_map.map Prod.fst
          = List.range (20 * 1) ∧
       ∀ p ∈ (set_scale st "Pentatonic Major" 60).2.note_map,
          (60:ℤ) ≤ p.2 ∧ p.2 ≤ 72) ∧
      ((set_grid_size st 20 1).2.note_map.map Prod.fst = List.range (20 * 1) ∧
       ∀ p ∈ (set_grid_size st 20 1).2.note_map, (60:ℤ) ≤ p.2 ∧ p.2 ≤ 72) ∧
      ((set_note_range st 60 72).2.note_map.map Prod.fst = List.range (20 * 1) ∧
       ∀ p ∈ (set_note_range st 60 72).2.note_map,
          (60:ℤ) ≤ p.2 ∧ p.2 ≤ 72)) :=
  note_map_invariant 60 "Pentatonic Major" 60 72 20 1 (by norm_num)
    (by norm_num) (by norm_num)

end PigeonSonatta
